import Mathlib

/-!
# Verification of the host-scanner filesystem & process introspection layer

A shallow embedding of the `sensor` package of the host-scanner agent:
the path resolver, process locator, argument parser, file inspector and
bounded directory walker, together with the sensors built on them
(`SenseControlPlaneInfo`, `SenseKubeletInfo`, `getSELinuxStatus`,
`getEtcdDataDir`).  Filesystem and process-table state is passed
explicitly through a `HostEnv` record; Go `(value, error)` returns become
`Except`/`Option`; Go `nil` pointers become `Option.none`.
-/

set_option autoImplicit false

namespace HostScanner

/-! ## Path model

The concrete path helpers (`hostPath`, the containment check) live in the
repository outside the files on hand, so they are modelled from the spec:
`Resolve` concatenates HostRoot with the logical path, normalizes the
result by collapsing `.`/`..` segments, and fails with `InvalidPath`
when the normalized result is not a descendant of HostRoot. -/

/-- Split a character list into the segments between `/` characters. -/
def splitSlash : List Char → List String
  | [] => [""]
  | c :: cs =>
    if c = '/' then "" :: splitSlash cs
    else
      match splitSlash cs with
      | [] => [String.mk [c]]
      | s :: ss => String.mk (c :: s.data) :: ss

/-- Collapse the segments of a path left to right: empty and `.` segments
are dropped, `..` removes the previous kept segment. -/
def cleanSegs (segs : List String) : List String :=
  segs.foldl
    (fun acc seg =>
      if seg = "" ∨ seg = "." then acc
      else if seg = ".." then acc.dropLast
      else acc ++ [seg])
    []

/-- Normalize an absolute path: split on `/`, collapse `.`/`..`, rejoin. -/
def cleanAbs (p : String) : String :=
  "/" ++ String.intercalate "/" (cleanSegs (splitSlash p.data))

/-- `child` is `root` itself or lies strictly below `root`. -/
def isDescendantOf (child root : String) : Bool :=
  child = root || (root ++ "/").data.isPrefixOf child.data

inductive PathError where
  | invalidPath
deriving DecidableEq, Repr

deriving instance DecidableEq for Except

/-- Modelled from the spec: the PathResolver contract `Resolve(logicalPath) ->
realPath` (the Go helper that resolves logical host paths under HostRoot is
not among the files on hand).  Concatenates HostRoot with the logical path,
normalizes, and fails with `InvalidPath` when the normalized result is not a
descendant of HostRoot. -/
def Resolve (hostRoot logicalPath : String) : Except PathError String :=
  let normalized := cleanAbs (hostRoot ++ logicalPath)
  if isDescendantOf normalized hostRoot then .ok normalized
  else .error .invalidPath

/-- Go `path.Join` on an absolute base, as used by the sensors to prefix a
logical path with `HostFileSystemDefaultLocation`: join with `/` and clean. -/
def pathJoin (a b : String) : String :=
  cleanAbs (a ++ "/" ++ b)

/-! ## Process model -/

structure ProcessDetails where
  pid : Nat
  exePath : String
  cmdline : List String
deriving DecidableEq, Repr

/-- Modelled from the spec: `LocateByExecutableSuffix` (the Go
`LocateProcessByExecSuffix` helper is not among the files on hand) — scan
the process table in order and return the first process whose resolved
executable path ends with `suffix`; `none` models `ProcessNotFound`. -/
def LocateProcessByExecSuffix (procs : List ProcessDetails) (suffix : String) :
    Option ProcessDetails :=
  procs.find? (fun p => suffix.data.isSuffixOf p.exePath.data)

/-- Prefix test on strings through their character lists. -/
def strHasPrefix (p s : String) : Bool :=
  p.data.isPrefixOf s.data

/-- Modelled from the spec: the scan behind `GetArg` (the Go method is not
among the files on hand) — a token exactly equal to `name` returns the
following token as the value, a single token of the form `name=value`
returns `value`; `("", false)` when neither form is present. -/
def getArgFromTokens (name : String) : List String → String × Bool
  | [] => ("", false)
  | t :: rest =>
    if t = name then
      match rest with
      | [] => ("", false)
      | v :: _ => (v, true)
    else if strHasPrefix (name ++ "=") t then
      (String.mk (t.data.drop (name ++ "=").data.length), true)
    else getArgFromTokens name rest

def ProcessDetails.GetArg (p : ProcessDetails) (name : String) : String × Bool :=
  getArgFromTokens name p.cmdline

/-- Modelled from the spec: `RawCmd` joins all tokens with a single space. -/
def ProcessDetails.RawCmd (p : ProcessDetails) : String :=
  String.intercalate " " p.cmdline

/-! ## Filesystem model -/

structure FileOwnership where
  uid : Nat
  gid : Nat
deriving DecidableEq, Repr

/-- Per-file evidence record (Go `FileInfo`): the logical path requested,
optional content, ownership and permission bits. -/
structure FileInfo where
  path : String
  content : Option String := none
  ownership : FileOwnership := ⟨0, 0⟩
  permissions : Nat := 0
  isDir : Bool := false
deriving DecidableEq, Repr

structure CNIPaths where
  conf_dir : String
deriving DecidableEq, Repr

/-- The ambient host state one sensor run reads: the process table, the
filesystem stat/read results, and the outcomes of the helpers whose Go code
is outside the files on hand (`getKubeletServiceFiles`,
`kubeletExtractCAFileFromConf`, `getContainerRuntimeCNIPaths`,
`makeHostDirFilesInfo`, `makeContaineredFileInfo`).  Functions of paths
model the filesystem, read-only for the duration of the run. -/
structure HostEnv where
  hostRoot : String := "/host"
  procs : List ProcessDetails := []
  /-- stat plus one-pass read at a path: `none` = absent or inaccessible. -/
  stat : String → Option FileInfo := fun _ => none
  /-- `ReadFileOnHostFileSystem`: content of a file under the host root. -/
  readFile : String → Option String := fun _ => none
  /-- whether `os.Open` succeeds at a real (already prefixed) path. -/
  canOpen : String → Bool := fun _ => false
  /-- result of `getKubeletServiceFiles`: `none` = error. -/
  serviceFiles : Option (List String) := none
  /-- result of `kubeletExtractCAFileFromConf` on a config content:
  `none` = YAML error, `some ""` = field absent. -/
  extractCA : String → Option String := fun _ => none
  /-- result of `getContainerRuntimeCNIPaths`: `none` = not found. -/
  cniPaths : Option CNIPaths := none
  /-- result of `makeHostDirFilesInfo` at a directory: `none` = nil slice. -/
  dirFiles : String → Option (List FileInfo) := fun _ => none
  /-- result of `makeContaineredFileInfo` for a pid and a path. -/
  containered : Nat → String → Option FileInfo := fun _ _ => none

/-- Modelled from the spec: `Inspect` in its Go `(value, error)` form
`makeHostFileInfo` (not among the files on hand) — stat the path; on
failure return the error for the caller to react to; on success return the
record, with content kept only when requested. -/
def makeHostFileInfo (env : HostEnv) (path : String) (readContent : Bool) :
    Except String FileInfo :=
  match env.stat path with
  | none => .error ("failed to stat " ++ path)
  | some fi => .ok (if readContent then fi else { fi with content := none })

/-- Modelled from the spec: `makeHostFileInfoVerbose` — like
`makeHostFileInfo`, but a failure is only logged as a warning: the caller
receives `none` ("no evidence") and proceeds. -/
def makeHostFileInfoVerbose (env : HostEnv) (path : String) (readContent : Bool) :
    Option FileInfo :=
  match makeHostFileInfo env path readContent with
  | .ok fi => some fi
  | .error _ => none

/-- `makeKubeletServiceFilesInfo`: inspect every kubelet service file;
a failed inspection is skipped, an empty result collapses to `none`. -/
def makeKubeletServiceFilesInfo (env : HostEnv) : Option (List FileInfo) :=
  match env.serviceFiles with
  | none => none
  | some files =>
    let serviceFiles := files.filterMap (fun f => makeHostFileInfoVerbose env f false)
    if serviceFiles = [] then none else some serviceFiles

/-! ## Control-plane sensor -/

/-- Go `K8sProcessInfo`: per-component file evidence plus the raw command
line; the zero value (all `nil`, empty command line) means "not found". -/
structure K8sProcessInfo where
  specsFile : Option FileInfo := none
  configFile : Option FileInfo := none
  kubeConfigFile : Option FileInfo := none
  clientCAFile : Option FileInfo := none
  cmdLine : String := ""
deriving DecidableEq, Repr

/-- The record `makeProcessInfoVerbose` assembles before its zero-value
check: one optional `FileInfo` per non-empty path (an empty path is
skipped), and the raw command line when the process was located. -/
def assembleProcessInfo (env : HostEnv) (p : Option ProcessDetails)
    (specsPath configPath kubeConfigPath clientCaPath : String) : K8sProcessInfo :=
  { specsFile := if specsPath = "" then none else makeHostFileInfoVerbose env specsPath false
    configFile := if configPath = "" then none else makeHostFileInfoVerbose env configPath false
    kubeConfigFile := if kubeConfigPath = "" then none else makeHostFileInfoVerbose env kubeConfigPath false
    clientCAFile := if clientCaPath = "" then none else makeHostFileInfoVerbose env clientCaPath false
    cmdLine := match p with
      | some q => q.RawCmd
      | none => "" }

/-- `makeProcessInfoVerbose`: assemble the record, then return `nil` when
it equals the zero value (Go `ret == (K8sProcessInfo{})`). -/
def makeProcessInfoVerbose (env : HostEnv) (p : Option ProcessDetails)
    (specsPath configPath kubeConfigPath clientCaPath : String) : Option K8sProcessInfo :=
  let ret := assembleProcessInfo env p specsPath configPath kubeConfigPath clientCaPath
  if ret = {} then none else some ret

/-! ### Control-plane constants (from `controlplanesensor.go`) -/

def apiServerExe : String := "/kube-apiserver"
def controllerManagerExe : String := "/kube-controller-manager"
def schedulerExe : String := "/kube-scheduler"
def etcdExe : String := "/etcd"
def etcdDataDirArg : String := "--data-dir"
def apiEncryptionProviderConfigArg : String := "--encryption-provider-config"
def apiServerSpecsPath : String := "/etc/kubernetes/manifests/kube-apiserver.yaml"
def controllerManagerSpecsPath : String := "/etc/kubernetes/manifests/kube-controller-manager.yaml"
def controllerManagerConfigPath : String := "/etc/kubernetes/controller-manager.conf"
def schedulerSpecsPath : String := "/etc/kubernetes/manifests/kube-scheduler.yaml"
def schedulerConfigPath : String := "/etc/kubernetes/scheduler.conf"
def etcdConfigPath : String := "/etc/kubernetes/manifests/etcd.yaml"
def adminConfigPath : String := "/etc/kubernetes/admin.conf"
def pkiDir : String := "/etc/kubernetes/pki"

inductive EtcdDataDirError where
  /-- the wrapped locate error "failed to locate kube-proxy process: %w". -/
  | locateFailed
  /-- `ErrDataDirNotFound` = "failed to find etcd data-dir". -/
  | dataDirNotFound
deriving DecidableEq, Repr

/-- `getEtcdDataDir`: locate the etcd process and read its `--data-dir`
argument; a missing process yields the wrapped locate error, a missing or
empty argument yields `ErrDataDirNotFound`. -/
def getEtcdDataDir (procs : List ProcessDetails) : Except EtcdDataDirError String :=
  match LocateProcessByExecSuffix procs etcdExe with
  | none => .error .locateFailed
  | some proc =>
    let r := proc.GetArg etcdDataDirArg
    if r.2 = false ∨ r.1 = "" then .error .dataDirNotFound
    else .ok r.1

/-- Outcome of running Go code that may dereference a nil pointer:
`nilPanic` models the runtime crash of such a dereference. -/
inductive RunResult (α : Type) where
  | value (a : α)
  | nilPanic
deriving DecidableEq, Repr

/-- `makeAPIserverEncryptionProviderConfigFile`: the encryption provider
config of the API server, read inside the process's mount namespace
(`makeContaineredFileInfo`, not among the files on hand, is abstracted by
`HostEnv.containered`).  The source calls `p.GetArg` with no nil check on
`p` — unlike every other call site of the nil-unsafe `ProcessDetails`
methods in the package — so a nil process handle is a nil-pointer
dereference, modelled as `nilPanic`. -/
def makeAPIserverEncryptionProviderConfigFile (env : HostEnv)
    (p : Option ProcessDetails) : RunResult (Option FileInfo) :=
  match p with
  | none => .nilPanic
  | some proc =>
    let r := proc.GetArg apiEncryptionProviderConfigArg
    .value (if r.2 = false then none else env.containered proc.pid r.1)

/-- Go `ApiServerInfo`: the embedded `*K8sProcessInfo` plus the encryption
provider config file. -/
structure ApiServerInfo where
  encryptionProviderConfigFile : Option FileInfo := none
  k8sInfo : Option K8sProcessInfo := none
deriving DecidableEq, Repr

/-- Go `ControlPlaneInfo`; `apiServerInfo` is not optional because the
sensor unconditionally allocates it. -/
structure ControlPlaneInfo where
  apiServerInfo : ApiServerInfo := {}
  controllerManagerInfo : Option K8sProcessInfo := none
  schedulerInfo : Option K8sProcessInfo := none
  etcdConfigFile : Option FileInfo := none
  etcdDataDir : Option FileInfo := none
  adminConfigFile : Option FileInfo := none
  pkiDIr : Option FileInfo := none
  pkiFiles : Option (List FileInfo) := none
  cniConfigFiles : Option (List FileInfo) := none
  cniConfigPath : String := ""
deriving DecidableEq, Repr

/-- Go `SenseError` (its message field is spelled `Massage` in the source). -/
structure SenseError where
  massage : String
  function : String
  code : Nat
deriving DecidableEq, Repr

/-- The `ControlPlaneInfo` record `SenseControlPlaneInfo` assembles before
its "not a control plane node" check: every piece of evidence is collected
independently and a failure only leaves its field `nil` — except the
encryption provider config step, whose unguarded nil `GetArg` crashes the
whole run when no API-server process was located. -/
def buildControlPlaneInfo (env : HostEnv) : RunResult ControlPlaneInfo :=
  let apiProc := LocateProcessByExecSuffix env.procs apiServerExe
  let controllerManagerProc := LocateProcessByExecSuffix env.procs controllerManagerExe
  let schedulerProc := LocateProcessByExecSuffix env.procs schedulerExe
  match makeAPIserverEncryptionProviderConfigFile env apiProc with
  | .nilPanic => .nilPanic
  | .value encryptionFile =>
  let base : ControlPlaneInfo :=
    { apiServerInfo :=
        { k8sInfo := makeProcessInfoVerbose env apiProc apiServerSpecsPath "" "" ""
          encryptionProviderConfigFile := encryptionFile }
      controllerManagerInfo :=
        makeProcessInfoVerbose env controllerManagerProc
          controllerManagerSpecsPath controllerManagerConfigPath "" ""
      schedulerInfo :=
        makeProcessInfoVerbose env schedulerProc schedulerSpecsPath schedulerConfigPath "" ""
      etcdConfigFile := makeHostFileInfoVerbose env etcdConfigPath false
      adminConfigFile := makeHostFileInfoVerbose env adminConfigPath false
      pkiDIr := makeHostFileInfoVerbose env pkiDir false
      pkiFiles := env.dirFiles pkiDir
      etcdDataDir :=
        match getEtcdDataDir env.procs with
        | .error _ => none
        | .ok dataDir => makeHostFileInfoVerbose env dataDir false
      cniConfigFiles := none
      cniConfigPath := "" }
  .value
    (match env.cniPaths with
     | none => base
     | some cniPaths =>
       { base with
           cniConfigFiles := env.dirFiles cniPaths.conf_dir
           cniConfigPath := cniPaths.conf_dir })

def notControlPlaneErr : SenseError :=
  { massage := "not a control plane node"
    function := "SenseControlPlaneInfo"
    code := 404 }

/-- The "wasn't able to find any data" test of `SenseControlPlaneInfo`:
the nine checked evidence fields are all `nil` (the encryption provider
config file is not part of the check). -/
def controlPlaneNoEvidence (ret : ControlPlaneInfo) : Prop :=
  ret.apiServerInfo.k8sInfo = none ∧ ret.controllerManagerInfo = none ∧
    ret.schedulerInfo = none ∧ ret.etcdConfigFile = none ∧
    ret.etcdDataDir = none ∧ ret.adminConfigFile = none ∧
    ret.pkiDIr = none ∧ ret.pkiFiles = none ∧ ret.cniConfigFiles = none

instance (ret : ControlPlaneInfo) : Decidable (controlPlaneNoEvidence ret) := by
  unfold controlPlaneNoEvidence; infer_instance

/-- `SenseControlPlaneInfo`: collect, then fail with the category-level
`SenseError` exactly when every checked evidence field is `nil`; a
nil-dereference crash during collection propagates. -/
def SenseControlPlaneInfo (env : HostEnv) :
    RunResult (Except SenseError ControlPlaneInfo) :=
  match buildControlPlaneInfo env with
  | .nilPanic => .nilPanic
  | .value ret =>
    .value (if controlPlaneNoEvidence ret then .error notControlPlaneErr
            else .ok ret)

/-! ## OS release sensor (`osreleasesensor.go`) -/

def etcDirName : String := "/etc"
def osReleaseFileSuffix : String := "os-release"
def appArmorProfilesFileName : String := "/sys/kernel/security/apparmor/profiles"
def seLinuxConfigFileName : String := "/etc/selinux/semanage.conf"

/-- Modelled from the spec: `ReadFileOnHostFileSystem` (the Go helper is
not among the files on hand) reads a file through the host mount root. -/
def ReadFileOnHostFileSystem (env : HostEnv) (path : String) : Option String :=
  env.readFile (pathJoin env.hostRoot path)

/-- `getSELinuxStatus`: opens the SELinux config file under the host root,
but then reads the AppArmor profiles file — the reuse of
`appArmorProfilesFileName` from `getAppArmorStatus` is preserved exactly
as in the source. -/
def getSELinuxStatus (env : HostEnv) : String :=
  if env.canOpen (pathJoin env.hostRoot seLinuxConfigFileName) then
    match ReadFileOnHostFileSystem env appArmorProfilesFileName with
    | some content => if content.length > 0 then content else "not found"
    | none => "not found"
  else "not found"

/-! ## Kubelet sensor (`kubeletsensor.go`) -/

def procDirName : String := "/proc"
def kubeletProcessSuffix : String := "/kubelet"
def kubeletConfigArgName : String := "--config"
def kubeletClientCAArgName : String := "--client-ca-file"
def kubeletConfigDefaultPath : String := "/var/lib/kubelet/config.yaml"
def kubeletKubeConfigDefaultPath : String := "/etc/kubernetes/kubelet.conf"

/-- Modelled from the spec: the kubeconfig flag name `kubeConfigArgName`
(declared in the repository outside the files on hand; the flag kubelet
accepts is `--kubeconfig`). -/
def kubeConfigArgName : String := "--kubeconfig"

/-- Go `KubeletInfo`. -/
structure KubeletInfo where
  serviceFiles : Option (List FileInfo) := none
  configFile : Option FileInfo := none
  kubeConfigFile : Option FileInfo := none
  clientCAFile : Option FileInfo := none
  cmdLine : String := ""
deriving DecidableEq, Repr

def LocateKubeletProcess (env : HostEnv) : Option ProcessDetails :=
  LocateProcessByExecSuffix env.procs kubeletProcessSuffix

/-- The path `SenseKubeletInfo` inspects for the kubelet config file:
the `--config` argument value, else `kubeletConfigDefaultPath`. -/
def kubeletConfigPathUsed (p : ProcessDetails) : String :=
  let configArg := p.GetArg kubeletConfigArgName
  if configArg.2 then configArg.1 else kubeletConfigDefaultPath

/-- The path `SenseKubeletInfo` inspects for the kubelet kubeconfig:
the `--kubeconfig` argument value, else — exactly as in the source —
`kubeletConfigDefaultPath` again, not `kubeletKubeConfigDefaultPath`. -/
def kubeletKubeConfigPathUsed (p : ProcessDetails) : String :=
  let kubeConfigArg := p.GetArg kubeConfigArgName
  if kubeConfigArg.2 then kubeConfigArg.1 else kubeletConfigDefaultPath

/-- The client-CA path `SenseKubeletInfo` settles on: the
`--client-ca-file` argument value; when absent and the config file was
read with content, the path extracted from that content (kept only when
extraction succeeds). -/
def kubeletCAFilePathUsed (env : HostEnv) (p : ProcessDetails) : String :=
  let caArg := p.GetArg kubeletClientCAArgName
  if caArg.2 then caArg.1
  else
    match (makeHostFileInfo env (kubeletConfigPathUsed p) true).toOption with
    | some configInfo =>
      match configInfo.content with
      | some content =>
        match env.extractCA content with
        | some extracted => extracted
        | none => caArg.1
      | none => caArg.1
    | none => caArg.1

/-- `SenseKubeletInfo`, instrumented: along with the result, the list of
every path handed to the file inspector, in order (service files, config
path, kubeconfig path, client-CA path when non-empty).  A failed locate
returns the wrapped error and inspects nothing. -/
def SenseKubeletInfo (env : HostEnv) : Except String KubeletInfo × List String :=
  match LocateKubeletProcess env with
  | none => (.error "failed to LocateKubeletProcess", [])
  | some kubeletProcess =>
    let configPath := kubeletConfigPathUsed kubeletProcess
    let kubeConfigPath := kubeletKubeConfigPathUsed kubeletProcess
    let caFilePath := kubeletCAFilePathUsed env kubeletProcess
    (.ok
      { serviceFiles := makeKubeletServiceFilesInfo env
        configFile := (makeHostFileInfo env configPath true).toOption
        kubeConfigFile := (makeHostFileInfo env kubeConfigPath false).toOption
        clientCAFile :=
          if caFilePath = "" then none
          else (makeHostFileInfo env caFilePath false).toOption
        cmdLine := kubeletProcess.RawCmd },
     (env.serviceFiles).getD [] ++ [configPath, kubeConfigPath] ++
       (if caFilePath = "" then [] else [caFilePath]))

/-! ## Directory walker -/

def maxRecursionDepth : Nat := 10

/-- The warning the walker logs for a truncated branch, with its message
exactly as asserted by `Test_makeHostDirFilesInfo` in `utils_test.go`. -/
def maxDepthWarning : String := "max recusrion depth exceeded"

/-- A directory tree: leaves are files, inner nodes directories. -/
inductive FsNode where
  | file (name : String)
  | dir (name : String) (children : List FsNode)

/-- Whether a file passes the optional name filter (Go `nil` accepts
everything). -/
def passesFilter (filter : Option (String → Bool)) (name : String) : Bool :=
  match filter with
  | none => true
  | some f => f name

mutual
/-- Modelled from the spec: the `Walk` contract of `makeHostDirFilesInfo`
(the Go walker is not among the files on hand; its depth bound, result
sizes and warning text are pinned by `Test_makeHostDirFilesInfo`).
Visiting a directory once `currentDepth` has reached `maxRecursionDepth`
emits a single warning for that branch and collects nothing from it;
otherwise its entries are listed: files that pass the filter are
collected, and when `recursive` every subdirectory is visited one level
deeper.  Returns the collected file names with the warnings logged. -/
def makeHostDirFilesInfo (node : FsNode) (recursive : Bool)
    (filter : Option (String → Bool)) (currentDepth : Nat) :
    List String × List String :=
  match node with
  | .file name => (if passesFilter filter name then [name] else [], [])
  | .dir _ children =>
    if maxRecursionDepth ≤ currentDepth then ([], [maxDepthWarning])
    else walkEntries children recursive filter (currentDepth + 1)

/-- One directory's entries, as the walker lists them. -/
def walkEntries (children : List FsNode) (recursive : Bool)
    (filter : Option (String → Bool)) (currentDepth : Nat) :
    List String × List String :=
  match children with
  | [] => ([], [])
  | .file name :: rest =>
    let r := walkEntries rest recursive filter currentDepth
    ((if passesFilter filter name then [name] else []) ++ r.1, r.2)
  | .dir n ch :: rest =>
    let r := walkEntries rest recursive filter currentDepth
    if recursive then
      let d := makeHostDirFilesInfo (.dir n ch) recursive filter currentDepth
      (d.1 ++ r.1, d.2 ++ r.2)
    else r
end

mutual
/-- Every file of a tree passing the filter, in listing order. -/
def allFiles (filter : Option (String → Bool)) : FsNode → List String
  | .file name => if passesFilter filter name then [name] else []
  | .dir _ children => allFilesList filter children

def allFilesList (filter : Option (String → Bool)) : List FsNode → List String
  | [] => []
  | c :: rest => allFiles filter c ++ allFilesList filter rest
end

mutual
/-- Cut a tree at a descent budget: a directory reached with no remaining
budget loses all of its children. -/
def pruneNode : FsNode → Nat → FsNode
  | .file name, _ => .file name
  | .dir name _, 0 => .dir name []
  | .dir name children, budget + 1 => .dir name (pruneList children budget)

def pruneList : List FsNode → Nat → List FsNode
  | [], _ => []
  | c :: rest, budget => pruneNode c budget :: pruneList rest budget
end

mutual
/-- How many branches the walker truncates when visiting `node` at
`depth` with recursion on. -/
def truncCount : FsNode → Nat → Nat
  | .file _, _ => 0
  | .dir _ children, depth =>
    if maxRecursionDepth ≤ depth then 1 else truncCountList children (depth + 1)

def truncCountList : List FsNode → Nat → Nat
  | [], _ => 0
  | c :: rest, depth => truncCount c depth + truncCountList rest depth
end

/-! ## Concrete instances used by examples and witnesses -/

/-- A host state with one kubelet service file and a filesystem where
nothing is accessible. -/
def envNoFs : HostEnv := { serviceFiles := some ["/x"] }

/-- A host whose SELinux config file can be opened and whose AppArmor
profiles file has non-empty content. -/
def envSELinux : HostEnv :=
  { canOpen := fun p => p == pathJoin "/host" seLinuxConfigFileName
    readFile := fun p =>
      if p = pathJoin "/host" appArmorProfilesFileName then
        some "apparmor-profiles-content"
      else none }

/-- The shape of the `testdata/testmakehostfiles` tree the repository
test walks: five files, one of them one directory deeper. -/
def treeTest : FsNode :=
  .dir "testmakehostfiles"
    [.file "a.txt", .file "b.txt", .file "c.txt", .file "d.txt",
     .dir "sub" [.file "e.txt"]]

/-- A node with a kubelet that passes no file-path flags. -/
def envKubelet : HostEnv :=
  { procs := [⟨44, "/usr/bin/kubelet", ["--anonymous-auth=false"]⟩] }

/-- A node whose only process is a kube-apiserver with an empty command
line; nothing exists on disk. -/
def envApiServerOnly : HostEnv :=
  { procs := [⟨7, "/usr/local/bin/kube-apiserver", []⟩] }

/-- A node with a kube-apiserver process and the etcd static pod manifest
on disk. -/
def envApiServerEtcd : HostEnv :=
  { procs := [⟨7, "/usr/local/bin/kube-apiserver", []⟩]
    stat := fun p =>
      if p = "/etc/kubernetes/manifests/etcd.yaml" then some { path := p }
      else none }

/-- Whether a control-plane run completed with an assembled record. -/
def isOkValue : RunResult (Except SenseError ControlPlaneInfo) → Bool
  | .value (.ok _) => true
  | _ => false

/-- A node running only etcd: no kube-apiserver process, but the etcd
static pod manifest exists on disk. -/
def envNoApiServer : HostEnv :=
  { procs := [⟨12, "/usr/bin/etcd", ["--data-dir", "/var/lib/etcd"]⟩]
    stat := fun p =>
      if p = "/etc/kubernetes/manifests/etcd.yaml" then some { path := p }
      else none }

/-! ## Theorems -/

/-! ### Helper lemmas about token scanning -/

theorem isPrefixOf_append_singleton (l : List Char) (c : Char) :
    (l ++ [c]).isPrefixOf l = false := by
  induction l with
  | nil => rfl
  | cons a as ih => simpa [List.isPrefixOf] using ih

theorem strHasPrefix_eq_append_self (name : String) :
    strHasPrefix (name ++ "=") name = false := by
  have hdata : (name ++ "=").data = name.data ++ ['='] := by
    cases name with
    | mk l => rfl
  simp [strHasPrefix, hdata, isPrefixOf_append_singleton]

theorem cons_eq_append_cons_cons_iff {t name : String} (rest : List String)
    (h : ¬ t = name) :
    (∃ pre v post, t :: rest = pre ++ name :: v :: post) ↔
      (∃ pre v post, rest = pre ++ name :: v :: post) := by
  constructor
  · rintro ⟨pre, v, post, he⟩
    cases pre with
    | nil =>
      simp only [List.nil_append, List.cons.injEq] at he
      exact absurd he.1 h
    | cons a pre =>
      simp only [List.cons_append, List.cons.injEq] at he
      exact ⟨pre, v, post, he.2⟩
  · rintro ⟨pre, v, post, he⟩
    exact ⟨t :: pre, v, post, by simp [he]⟩

theorem getArgFromTokens_found_iff (name : String) (ts : List String) :
    (getArgFromTokens name ts).2 = true ↔
      (∃ pre v post, ts = pre ++ name :: v :: post) ∨
      (∃ t ∈ ts, strHasPrefix (name ++ "=") t = true) := by
  induction ts with
  | nil => simp [getArgFromTokens]
  | cons t rest ih =>
    by_cases hname : t = name
    · subst hname
      cases rest with
      | nil =>
        simp only [getArgFromTokens, if_pos rfl]
        constructor
        · intro hfalse; exact absurd hfalse (by simp)
        · rintro (⟨pre, v, post, he⟩ | ⟨x, hx, hpre⟩)
          · cases pre with
            | nil => simp at he
            | cons a pre => simp at he
          · simp only [List.mem_singleton] at hx
            subst hx
            exact absurd hpre (by simp [strHasPrefix_eq_append_self])
      | cons v vs =>
        simp only [getArgFromTokens, if_pos rfl]
        constructor
        · intro _; exact Or.inl ⟨[], v, vs, rfl⟩
        · intro _; trivial
    · by_cases hpre : strHasPrefix (name ++ "=") t = true
      · simp only [getArgFromTokens, if_neg hname, if_pos hpre]
        constructor
        · intro _; exact Or.inr ⟨t, List.mem_cons_self t rest, hpre⟩
        · intro _; trivial
      · simp only [getArgFromTokens, if_neg hname, if_neg hpre]
        rw [ih, cons_eq_append_cons_cons_iff rest hname]
        constructor
        · rintro (hd | ⟨x, hx, hp⟩)
          · exact Or.inl hd
          · exact Or.inr ⟨x, List.mem_cons_of_mem t hx, hp⟩
        · rintro (hd | ⟨x, hx, hp⟩)
          · exact Or.inl hd
          · rcases List.mem_cons.mp hx with hx | hx
            · subst hx; exact absurd hp hpre
            · exact Or.inr ⟨x, hx, hp⟩

theorem getArgFromTokens_not_found (name : String) (ts : List String) :
    (getArgFromTokens name ts).2 = false → (getArgFromTokens name ts).1 = "" := by
  induction ts with
  | nil => intro _; rfl
  | cons t rest ih =>
    by_cases hname : t = name
    · subst hname
      cases rest with
      | nil => intro _; simp [getArgFromTokens]
      | cons v vs => simp [getArgFromTokens]
    · by_cases hpre : strHasPrefix (name ++ "=") t = true
      · simp [getArgFromTokens, hname, hpre]
      · simpa [getArgFromTokens, hname, hpre] using ih


/-- C1: `Resolve` concatenates HostRoot with the logical path, normalizes,
and fails with `InvalidPath` exactly when the normalized result is not a
descendant of HostRoot; with HostRoot `/host`, `/../etc/shadow` fails with
`InvalidPath` while `/etc/kubelet.conf` yields `/host/etc/kubelet.conf`. -/
theorem resolve_invalidPath_iff_escapes :
    (∀ hostRoot logicalPath : String,
      (Resolve hostRoot logicalPath = .error .invalidPath ↔
        isDescendantOf (cleanAbs (hostRoot ++ logicalPath)) hostRoot = false) ∧
      (∀ r, Resolve hostRoot logicalPath = .ok r →
        r = cleanAbs (hostRoot ++ logicalPath) ∧
        isDescendantOf r hostRoot = true)) ∧
    Resolve "/host" "/../etc/shadow" = .error .invalidPath ∧
    Resolve "/host" "/etc/kubelet.conf" = .ok "/host/etc/kubelet.conf" := by
  refine ⟨fun hostRoot logicalPath => ?_, by decide, by decide⟩
  constructor
  · unfold Resolve
    cases h : isDescendantOf (cleanAbs (hostRoot ++ logicalPath)) hostRoot <;> simp [h]
  · intro r hr
    unfold Resolve at hr
    cases h : isDescendantOf (cleanAbs (hostRoot ++ logicalPath)) hostRoot <;>
      simp [h] at hr
    exact ⟨hr.symm, hr ▸ h⟩

/-- C5: `GetArg(name)` over a token sequence returns `found = true` exactly
when the sequence contains a token exactly equal to `name` followed by a
value token or a single token of the form `name=value`; it returns
`("", false)` when neither form is present, and `GetArg "--config"` over
`["--config", "/a/b"]` and over `["--config=/a/b"]` both yield
`("/a/b", true)`. -/
theorem getArg_two_forms :
    (∀ (p : ProcessDetails) (name : String),
      ((p.GetArg name).2 = true ↔
        (∃ pre v post, p.cmdline = pre ++ name :: v :: post) ∨
        (∃ t ∈ p.cmdline, strHasPrefix (name ++ "=") t = true)) ∧
      ((p.GetArg name).2 = false → p.GetArg name = ("", false))) ∧
    (⟨1, "/usr/bin/kubelet", ["--config", "/a/b"]⟩ : ProcessDetails).GetArg "--config" = ("/a/b", true) ∧
    (⟨1, "/usr/bin/kubelet", ["--config=/a/b"]⟩ : ProcessDetails).GetArg "--config" = ("/a/b", true) ∧
    (⟨1, "/usr/bin/kubelet", ["--foo", "/a/b"]⟩ : ProcessDetails).GetArg "--config" = ("", false) := by
  refine ⟨fun p name => ⟨getArgFromTokens_found_iff name p.cmdline, ?_⟩,
    by decide, by decide, by decide⟩
  intro h
  have h2 : (getArgFromTokens name p.cmdline).2 = false := h
  have hv := getArgFromTokens_not_found name p.cmdline h2
  show getArgFromTokens name p.cmdline = ("", false)
  rcases hget : getArgFromTokens name p.cmdline with ⟨a, b⟩
  rw [hget] at hv h2
  simp only at hv h2
  rw [hv, h2]

theorem list_filterMap_filter_ne {α β : Type} [DecidableEq α] (g : α → Option β)
    (x : α) (hx : g x = none) (l : List α) :
    l.filterMap g = (l.filter (fun y => y != x)).filterMap g := by
  induction l with
  | nil => rfl
  | cons a as ih =>
    by_cases ha : a = x
    · subst ha
      simp [List.filterMap_cons, List.filter_cons, hx, ← ih]
    · simp [List.filterMap_cons, List.filter_cons, ha, ← ih]

theorem makeHostFileInfoVerbose_update_serviceFiles (env : HostEnv)
    (sf : Option (List String)) (p : String) (b : Bool) :
    makeHostFileInfoVerbose { env with serviceFiles := sf } p b =
      makeHostFileInfoVerbose env p b := rfl

/-- C6: `Inspect` on a path that does not exist or cannot be accessed is a
soft failure: the verbose form returns `nil` (the caller sees no fatal
error, only an `Except.error` value in the raw `(value, error)` form), and
a caller such as `makeKubeletServiceFilesInfo` treats `nil` as "no
evidence", dropping that file and continuing with the remaining ones. -/
theorem inspect_nonexistent_soft_failure (env : HostEnv) (path : String)
    (withContent : Bool) (h : env.stat path = none) :
    makeHostFileInfoVerbose env path withContent = none ∧
    makeHostFileInfo env path withContent = .error ("failed to stat " ++ path) ∧
    (∀ files, env.serviceFiles = some files →
      makeKubeletServiceFilesInfo env =
        makeKubeletServiceFilesInfo
          { env with serviceFiles := some (files.filter (fun f => f != path)) }) := by
  have hv : ∀ b, makeHostFileInfoVerbose env path b = none := by
    intro b; simp [makeHostFileInfoVerbose, makeHostFileInfo, h]
  refine ⟨hv withContent, by simp [makeHostFileInfo, h], ?_⟩
  intro files hf
  simp only [makeKubeletServiceFilesInfo, hf,
    makeHostFileInfoVerbose_update_serviceFiles]
  rw [← list_filterMap_filter_ne _ path (hv false) files]

theorem inspect_nonexistent_soft_failure_witness :
    makeHostFileInfoVerbose envNoFs "/x" false = none ∧
    makeHostFileInfo envNoFs "/x" false = .error ("failed to stat " ++ "/x") ∧
    (∀ files, envNoFs.serviceFiles = some files →
      makeKubeletServiceFilesInfo envNoFs =
        makeKubeletServiceFilesInfo
          { envNoFs with serviceFiles := some (files.filter (fun f => f != "/x")) }) :=
  inspect_nonexistent_soft_failure envNoFs "/x" false rfl

/-- C7: `makeProcessInfoVerbose` returns `nil` exactly when the assembled
`K8sProcessInfo` record equals the zero value; whenever any informational
field is populated — including only a non-empty command line from a located
process — it returns the non-nil record. -/
theorem makeProcessInfoVerbose_nil_iff_zero :
    (∀ (env : HostEnv) (p : Option ProcessDetails) (a b c d : String),
      (makeProcessInfoVerbose env p a b c d = none ↔
        assembleProcessInfo env p a b c d = ({} : K8sProcessInfo)) ∧
      ((assembleProcessInfo env p a b c d).cmdLine ≠ "" →
        makeProcessInfoVerbose env p a b c d =
          some (assembleProcessInfo env p a b c d))) ∧
    makeProcessInfoVerbose {}
        (some ⟨7, "/usr/local/bin/kube-scheduler", ["--leader-elect=true"]⟩)
        "" "" "" "" =
      some { cmdLine := "--leader-elect=true" } := by
  refine ⟨fun env p a b c d => ⟨?_, ?_⟩, by decide⟩
  · unfold makeProcessInfoVerbose
    by_cases hz : assembleProcessInfo env p a b c d = ({} : K8sProcessInfo) <;>
      simp [hz]
  · intro hc
    have hz : ¬ (assembleProcessInfo env p a b c d = ({} : K8sProcessInfo)) :=
      fun he => hc (by rw [he])
    unfold makeProcessInfoVerbose
    simp [hz]

/-- C2, failing on the code: over a process table where no executable path
ends with `/kube-apiserver` (the locate step fails), the control-plane
sensor does not degrade gracefully as the spec requires — the nil process
handle flows unguarded into `GetArg` inside
`makeAPIserverEncryptionProviderConfigFile` and the run crashes with a
nil-pointer dereference instead of returning a partial `ControlPlaneInfo`
or a `SenseError`; with an API-server process located, the run completes. -/
theorem senseControlPlane_no_apiserver_panics :
    (∀ env : HostEnv,
      (LocateProcessByExecSuffix env.procs apiServerExe = none →
        SenseControlPlaneInfo env = .nilPanic) ∧
      (∀ p, LocateProcessByExecSuffix env.procs apiServerExe = some p →
        ¬ SenseControlPlaneInfo env = .nilPanic)) ∧
    SenseControlPlaneInfo envNoApiServer = .nilPanic := by
  refine ⟨fun env => ⟨?_, ?_⟩, by decide⟩
  · intro h
    simp [SenseControlPlaneInfo, buildControlPlaneInfo, h,
      makeAPIserverEncryptionProviderConfigFile]
  · intro p hp hcrash
    simp [SenseControlPlaneInfo, buildControlPlaneInfo, hp,
      makeAPIserverEncryptionProviderConfigFile] at hcrash

/-- C3: the "not a control plane node" check of `SenseControlPlaneInfo`
matches the claim whenever a run reaches it — for every completed
collection, the category-level `SenseError` is returned iff every checked
evidence field (API server process info, controller-manager info,
scheduler info, etcd config file, etcd data dir, admin config file, PKI
dir, PKI files, CNI config files) is absent, and otherwise the assembled
record with no error — but on a node with no kube-apiserver process at
all (the empty process table), where every piece of evidence is absent,
the run crashes on the nil `GetArg` before the check and never produces
the `SenseError`. -/
theorem senseControlPlane_error_iff_no_evidence_when_completed :
    (∀ (env : HostEnv) (ret : ControlPlaneInfo),
      buildControlPlaneInfo env = .value ret →
      (SenseControlPlaneInfo env = .value (.error notControlPlaneErr) ↔
        (ret.apiServerInfo.k8sInfo = none ∧
         ret.controllerManagerInfo = none ∧
         ret.schedulerInfo = none ∧
         ret.etcdConfigFile = none ∧
         ret.etcdDataDir = none ∧
         ret.adminConfigFile = none ∧
         ret.pkiDIr = none ∧
         ret.pkiFiles = none ∧
         ret.cniConfigFiles = none)) ∧
      (¬ (ret.apiServerInfo.k8sInfo = none ∧
         ret.controllerManagerInfo = none ∧
         ret.schedulerInfo = none ∧
         ret.etcdConfigFile = none ∧
         ret.etcdDataDir = none ∧
         ret.adminConfigFile = none ∧
         ret.pkiDIr = none ∧
         ret.pkiFiles = none ∧
         ret.cniConfigFiles = none) →
        SenseControlPlaneInfo env = .value (.ok ret))) ∧
    SenseControlPlaneInfo {} = .nilPanic ∧
    ¬ SenseControlPlaneInfo {} = .value (.error notControlPlaneErr) ∧
    SenseControlPlaneInfo envApiServerOnly = .value (.error notControlPlaneErr) ∧
    isOkValue (SenseControlPlaneInfo envApiServerEtcd) = true := by
  refine ⟨fun env ret hret => ?_, by decide, by decide, by decide, by decide⟩
  by_cases h : controlPlaneNoEvidence ret
  · refine ⟨⟨fun _ => h, fun _ => ?_⟩, fun hn => absurd h hn⟩
    simp [SenseControlPlaneInfo, hret, h]
  · have hok : SenseControlPlaneInfo env = .value (.ok ret) := by
      simp [SenseControlPlaneInfo, hret, h]
    refine ⟨⟨fun he => absurd (hok ▸ he) (by simp), fun hh => absurd hh h⟩,
      fun _ => hok⟩

/-- C10: `getEtcdDataDir` returns `ErrDataDirNotFound` exactly when an etcd
process is located but its `--data-dir` argument is missing or empty; a
missing process yields the wrapped locate error instead, and a located
non-empty value is returned with no error. -/
theorem getEtcdDataDir_cases :
    (∀ procs : List ProcessDetails,
      (getEtcdDataDir procs = .error .dataDirNotFound ↔
        ∃ p, LocateProcessByExecSuffix procs etcdExe = some p ∧
          ((p.GetArg etcdDataDirArg).2 = false ∨ (p.GetArg etcdDataDirArg).1 = "")) ∧
      (getEtcdDataDir procs = .error .locateFailed ↔
        LocateProcessByExecSuffix procs etcdExe = none) ∧
      (∀ v, getEtcdDataDir procs = .ok v →
        ¬ v = "" ∧ ∃ p, LocateProcessByExecSuffix procs etcdExe = some p ∧
          p.GetArg etcdDataDirArg = (v, true))) ∧
    getEtcdDataDir [⟨12, "/usr/bin/etcd", ["--data-dir", "/var/lib/etcd"]⟩] =
      .ok "/var/lib/etcd" ∧
    getEtcdDataDir [⟨12, "/usr/bin/etcd", ["--heartbeat-interval=100"]⟩] =
      .error .dataDirNotFound ∧
    getEtcdDataDir [] = .error .locateFailed := by
  refine ⟨fun procs => ?_, by decide, by decide, by decide⟩
  cases hloc : LocateProcessByExecSuffix procs etcdExe with
  | none =>
    have hdef : getEtcdDataDir procs = .error .locateFailed := by
      simp [getEtcdDataDir, hloc]
    refine ⟨⟨fun he => ?_, fun ⟨p, hp, _⟩ => Option.noConfusion hp⟩,
      ⟨fun _ => rfl, fun _ => hdef⟩, fun v hv => ?_⟩
    · rw [hdef] at he
      exact absurd he (by decide)
    · rw [hdef] at hv
      exact Except.noConfusion hv
  | some p =>
    by_cases hc : (p.GetArg etcdDataDirArg).2 = false ∨ (p.GetArg etcdDataDirArg).1 = ""
    · have hdef : getEtcdDataDir procs = .error .dataDirNotFound := by
        simp [getEtcdDataDir, hloc, hc]
      refine ⟨⟨fun _ => ⟨p, rfl, hc⟩, fun _ => hdef⟩,
        ⟨fun he => ?_, fun hn => Option.noConfusion hn⟩, fun v hv => ?_⟩
      · rw [hdef] at he
        exact absurd he (by decide)
      · rw [hdef] at hv
        exact Except.noConfusion hv
    · have hdef : getEtcdDataDir procs = .ok (p.GetArg etcdDataDirArg).1 := by
        simp [getEtcdDataDir, hloc, hc]
      push_neg at hc
      refine ⟨⟨fun he => ?_, fun ⟨q, hq, hcond⟩ => ?_⟩,
        ⟨fun he => ?_, fun hn => Option.noConfusion hn⟩, fun v hv => ?_⟩
      · rw [hdef] at he
        exact Except.noConfusion he
      · cases hq
        rcases hcond with h1 | h1
        · exact absurd h1 hc.1
        · exact absurd h1 hc.2
      · rw [hdef] at he
        exact Except.noConfusion he
      · rw [hdef] at hv
        injection hv with h
        subst h
        have h2 : (p.GetArg etcdDataDirArg).2 = true := by
          cases hb : (p.GetArg etcdDataDirArg).2 with
          | false => exact absurd hb hc.1
          | true => rfl
        refine ⟨hc.2, p, rfl, ?_⟩
        rw [← h2]

/-- C8: `getSELinuxStatus` never reads the content of any SELinux file: it
is "not found" when `/etc/selinux/semanage.conf` cannot be opened under the
host root; otherwise it is the content of the AppArmor profiles file
`/sys/kernel/security/apparmor/profiles` when that read succeeds with
non-empty content, and "not found" in every other case — so the result
depends only on whether the SELinux config opens and on the AppArmor
read. -/
theorem getSELinuxStatus_reads_apparmor_file :
    (∀ env : HostEnv,
      (env.canOpen (pathJoin env.hostRoot seLinuxConfigFileName) = false →
        getSELinuxStatus env = "not found") ∧
      (∀ content, env.canOpen (pathJoin env.hostRoot seLinuxConfigFileName) = true →
        ReadFileOnHostFileSystem env appArmorProfilesFileName = some content →
        getSELinuxStatus env =
          if content.length > 0 then content else "not found") ∧
      (ReadFileOnHostFileSystem env appArmorProfilesFileName = none →
        getSELinuxStatus env = "not found")) ∧
    (∀ env₁ env₂ : HostEnv,
      env₁.canOpen (pathJoin env₁.hostRoot seLinuxConfigFileName) =
        env₂.canOpen (pathJoin env₂.hostRoot seLinuxConfigFileName) →
      ReadFileOnHostFileSystem env₁ appArmorProfilesFileName =
        ReadFileOnHostFileSystem env₂ appArmorProfilesFileName →
      getSELinuxStatus env₁ = getSELinuxStatus env₂) ∧
    getSELinuxStatus envSELinux = "apparmor-profiles-content" ∧
    getSELinuxStatus { envSELinux with canOpen := fun _ => false } = "not found" := by
  refine ⟨fun env => ⟨?_, ?_, ?_⟩, fun env₁ env₂ h1 h2 => ?_, by decide, by decide⟩
  · intro h
    simp [getSELinuxStatus, h]
  · intro content hopen hread
    simp [getSELinuxStatus, hopen, hread]
  · intro hread
    by_cases hopen : env.canOpen (pathJoin env.hostRoot seLinuxConfigFileName) = true <;>
      simp [getSELinuxStatus, hopen, hread]
  · simp only [getSELinuxStatus]
    rw [h1, h2]

theorem kubeletConfigPathUsed_ne (p : ProcessDetails) (target : String)
    (ha : (p.GetArg kubeletConfigArgName).1 ≠ target)
    (hd : kubeletConfigDefaultPath ≠ target) :
    kubeletConfigPathUsed p ≠ target := by
  unfold kubeletConfigPathUsed
  cases hb : (p.GetArg kubeletConfigArgName).2 <;> simp [hb, ha, hd]

theorem kubeletKubeConfigPathUsed_ne (p : ProcessDetails) (target : String)
    (ha : (p.GetArg kubeConfigArgName).1 ≠ target)
    (hd : kubeletConfigDefaultPath ≠ target) :
    kubeletKubeConfigPathUsed p ≠ target := by
  unfold kubeletKubeConfigPathUsed
  cases hb : (p.GetArg kubeConfigArgName).2 <;> simp [hb, ha, hd]

theorem kubeletCAFilePathUsed_ne (env : HostEnv) (p : ProcessDetails) (target : String)
    (ha : (p.GetArg kubeletClientCAArgName).1 ≠ target)
    (hx : ∀ content, env.extractCA content ≠ some target) :
    kubeletCAFilePathUsed env p ≠ target := by
  unfold kubeletCAFilePathUsed
  cases hb : (p.GetArg kubeletClientCAArgName).2 with
  | true => simpa [hb] using ha
  | false =>
    simp only [hb, Bool.false_eq_true, if_false]
    split
    · split
      · split
        · rename_i heq
          intro hT
          rw [hT] at heq
          exact hx _ heq
        · exact ha
      · exact ha
    · exact ha

/-- C9: in `SenseKubeletInfo`, when the kubelet command line carries no
kubeconfig argument, the `KubeConfigFile` evidence is captured from the
config-file default `/var/lib/kubelet/config.yaml`; the declared
kubeconfig default `/etc/kubernetes/kubelet.conf`
(`kubeletKubeConfigDefaultPath`) is inspected on no execution path unless
that exact string arrives explicitly as an argument value, an extracted
CA path, or a service-file path — in particular never as a default. -/
theorem senseKubelet_kubeconfig_default_unused (env : HostEnv)
    (kubeletProcess : ProcessDetails)
    (hloc : LocateKubeletProcess env = some kubeletProcess) :
    ((kubeletProcess.GetArg kubeConfigArgName).2 = false →
      (∃ info, (SenseKubeletInfo env).1 = .ok info ∧
        info.kubeConfigFile =
          (makeHostFileInfo env kubeletConfigDefaultPath false).toOption) ∧
      kubeletConfigDefaultPath ∈ (SenseKubeletInfo env).2) ∧
    ((∀ files, env.serviceFiles = some files →
        kubeletKubeConfigDefaultPath ∉ files) →
      (kubeletProcess.GetArg kubeletConfigArgName).1 ≠ kubeletKubeConfigDefaultPath →
      (kubeletProcess.GetArg kubeConfigArgName).1 ≠ kubeletKubeConfigDefaultPath →
      (kubeletProcess.GetArg kubeletClientCAArgName).1 ≠ kubeletKubeConfigDefaultPath →
      (∀ content, env.extractCA content ≠ some kubeletKubeConfigDefaultPath) →
      kubeletKubeConfigDefaultPath ∉ (SenseKubeletInfo env).2) := by
  have hpair : SenseKubeletInfo env =
      (.ok
        { serviceFiles := makeKubeletServiceFilesInfo env
          configFile :=
            (makeHostFileInfo env (kubeletConfigPathUsed kubeletProcess) true).toOption
          kubeConfigFile :=
            (makeHostFileInfo env (kubeletKubeConfigPathUsed kubeletProcess) false).toOption
          clientCAFile :=
            if kubeletCAFilePathUsed env kubeletProcess = "" then none
            else (makeHostFileInfo env (kubeletCAFilePathUsed env kubeletProcess) false).toOption
          cmdLine := kubeletProcess.RawCmd },
       (env.serviceFiles).getD [] ++
         [kubeletConfigPathUsed kubeletProcess, kubeletKubeConfigPathUsed kubeletProcess] ++
         (if kubeletCAFilePathUsed env kubeletProcess = "" then []
          else [kubeletCAFilePathUsed env kubeletProcess])) := by
    simp [SenseKubeletInfo, hloc]
  constructor
  · intro hno
    have hused : kubeletKubeConfigPathUsed kubeletProcess = kubeletConfigDefaultPath := by
      simp [kubeletKubeConfigPathUsed, hno]
    constructor
    · refine ⟨_, by rw [hpair], ?_⟩
      show (makeHostFileInfo env (kubeletKubeConfigPathUsed kubeletProcess) false).toOption =
        (makeHostFileInfo env kubeletConfigDefaultPath false).toOption
      rw [hused]
    · rw [hpair]
      simp [hused, List.mem_append]
  · intro h1s h2 h3 h4 h5 hmem
    rw [hpair] at hmem
    simp only [List.mem_append, List.mem_cons, List.not_mem_nil, or_false] at hmem
    rcases hmem with (hsvc | (hcfg | hkc)) | hca
    · cases hs : env.serviceFiles with
      | none => rw [hs] at hsvc; simp at hsvc
      | some files =>
        rw [hs] at hsvc
        exact h1s files hs hsvc
    · exact kubeletConfigPathUsed_ne kubeletProcess kubeletKubeConfigDefaultPath h2
        (by decide) hcfg.symm
    · exact kubeletKubeConfigPathUsed_ne kubeletProcess kubeletKubeConfigDefaultPath h3
        (by decide) hkc.symm
    · by_cases hempty : kubeletCAFilePathUsed env kubeletProcess = ""
      · rw [if_pos hempty] at hca
        simp at hca
      · rw [if_neg hempty] at hca
        simp only [List.mem_singleton] at hca
        exact kubeletCAFilePathUsed_ne env kubeletProcess kubeletKubeConfigDefaultPath h4 h5
          hca.symm

theorem senseKubelet_kubeconfig_default_unused_witness :
    LocateKubeletProcess envKubelet =
      some ⟨44, "/usr/bin/kubelet", ["--anonymous-auth=false"]⟩ ∧
    ((((⟨44, "/usr/bin/kubelet", ["--anonymous-auth=false"]⟩ :
          ProcessDetails).GetArg kubeConfigArgName).2 = false →
      (∃ info, (SenseKubeletInfo envKubelet).1 = .ok info ∧
        info.kubeConfigFile =
          (makeHostFileInfo envKubelet kubeletConfigDefaultPath false).toOption) ∧
      kubeletConfigDefaultPath ∈ (SenseKubeletInfo envKubelet).2) ∧
    ((∀ files, envKubelet.serviceFiles = some files →
        kubeletKubeConfigDefaultPath ∉ files) →
      (((⟨44, "/usr/bin/kubelet", ["--anonymous-auth=false"]⟩ :
          ProcessDetails).GetArg kubeletConfigArgName).1 ≠ kubeletKubeConfigDefaultPath) →
      (((⟨44, "/usr/bin/kubelet", ["--anonymous-auth=false"]⟩ :
          ProcessDetails).GetArg kubeConfigArgName).1 ≠ kubeletKubeConfigDefaultPath) →
      (((⟨44, "/usr/bin/kubelet", ["--anonymous-auth=false"]⟩ :
          ProcessDetails).GetArg kubeletClientCAArgName).1 ≠ kubeletKubeConfigDefaultPath) →
      (∀ content, envKubelet.extractCA content ≠ some kubeletKubeConfigDefaultPath) →
      kubeletKubeConfigDefaultPath ∉ (SenseKubeletInfo envKubelet).2)) :=
  ⟨by decide,
    senseKubelet_kubeconfig_default_unused envKubelet
      ⟨44, "/usr/bin/kubelet", ["--anonymous-auth=false"]⟩ (by decide)⟩

theorem makeHostDirFilesInfo_characterization (t : FsNode) (filter : Option (String → Bool)) (d : Nat) :
    makeHostDirFilesInfo t true filter d =
      (allFiles filter (pruneNode t (maxRecursionDepth - d)),
       List.replicate (truncCount t d) maxDepthWarning) := by
  refine makeHostDirFilesInfo.induct
    (fun node recursive filterM depth => recursive = true →
      makeHostDirFilesInfo node recursive filterM depth =
        (allFiles filterM (pruneNode node (maxRecursionDepth - depth)),
         List.replicate (truncCount node depth) maxDepthWarning))
    (fun ch recursive filterM depth => recursive = true →
      walkEntries ch recursive filterM depth =
        (allFilesList filterM (pruneList ch (maxRecursionDepth - depth)),
         List.replicate (truncCountList ch depth) maxDepthWarning))
    ?_ ?_ ?_ ?_ ?_ ?_ ?_ t true filter d rfl
  · intro rec f dp name hrec
    subst hrec
    simp only [makeHostDirFilesInfo, allFiles, pruneNode, truncCount,
      List.replicate_zero]
  · intro rec f dp name children hd hrec
    subst hrec
    rw [Nat.sub_eq_zero_of_le hd]
    simp only [makeHostDirFilesInfo, if_pos hd, truncCount, pruneNode,
      allFiles, allFilesList, List.replicate_one]
  · intro rec f dp name children hd ih hrec
    subst hrec
    have hpos : maxRecursionDepth - dp = (maxRecursionDepth - (dp + 1)) + 1 := by
      omega
    rw [hpos]
    simp only [makeHostDirFilesInfo, if_neg hd, truncCount, pruneNode, allFiles]
    exact ih rfl
  · intro rec f dp hrec
    subst hrec
    simp only [walkEntries, pruneList, allFilesList, truncCountList,
      List.replicate_zero]
  · intro rec f dp name rest ih hrec
    subst hrec
    simp only [walkEntries]
    rw [ih rfl]
    simp only [pruneList, pruneNode, allFilesList, allFiles, truncCountList,
      truncCount, Nat.zero_add]
  · intro f dp n ch rest ih1 ih2 _
    simp only [walkEntries, if_true]
    rw [ih1 rfl, ih2 rfl]
    simp only [pruneList, allFilesList, truncCountList, List.replicate_add]
  · intro rec f dp n ch rest hrec ih htrue
    exact absurd htrue hrec

/-- C4 (amended: the warning text is the one the repository's test pins,
"max recusrion depth exceeded"): the recursive `Walk` returns exactly the
files reachable within `maxRecursionDepth` levels — the files of the tree
pruned at the remaining descent budget — stops descending into a branch
once the cap is reached, logs exactly one warning per truncated branch,
and still returns the shallower files instead of failing the call; over
the test tree it yields all five files from depth `0`, and four files
plus one warning from depth `maxRecursionDepth - 1`. -/
theorem walk_depth_bounded_partial :
    (∀ (t : FsNode) (filter : Option (String → Bool)) (d : Nat),
      (makeHostDirFilesInfo t true filter d).1 =
        allFiles filter (pruneNode t (maxRecursionDepth - d)) ∧
      (makeHostDirFilesInfo t true filter d).2 =
        List.replicate (truncCount t d) maxDepthWarning) ∧
    (makeHostDirFilesInfo treeTest true none 0).1 =
      ["a.txt", "b.txt", "c.txt", "d.txt", "e.txt"] ∧
    (makeHostDirFilesInfo treeTest true none 0).2 = [] ∧
    (makeHostDirFilesInfo treeTest true none (maxRecursionDepth - 1)).1 =
      ["a.txt", "b.txt", "c.txt", "d.txt"] ∧
    (makeHostDirFilesInfo treeTest true none (maxRecursionDepth - 1)).2 =
      [maxDepthWarning] := by
  refine ⟨fun t filter d => ?_, ?_, ?_, ?_, ?_⟩
  · rw [makeHostDirFilesInfo_characterization]
    exact ⟨rfl, rfl⟩
  all_goals
    simp [treeTest, makeHostDirFilesInfo, walkEntries, passesFilter,
      maxRecursionDepth, maxDepthWarning]

/-- C4, counterexample to the stated warning text: the walker truncates
exactly one branch of the test tree yet logs zero warnings reading
"max recursion depth exceeded" — the message it logs is spelled
"max recusrion depth exceeded". -/
theorem walk_warning_text_differs :
    truncCount treeTest (maxRecursionDepth - 1) = 1 ∧
    (makeHostDirFilesInfo treeTest true none (maxRecursionDepth - 1)).2 =
      [maxDepthWarning] ∧
    ((makeHostDirFilesInfo treeTest true none (maxRecursionDepth - 1)).2).count
      "max recursion depth exceeded" = 0 ∧
    ¬ maxDepthWarning = "max recursion depth exceeded" := by
  have h2 : (makeHostDirFilesInfo treeTest true none (maxRecursionDepth - 1)).2 =
      [maxDepthWarning] := by
    simp [treeTest, makeHostDirFilesInfo, walkEntries, passesFilter,
      maxRecursionDepth, maxDepthWarning]
  refine ⟨?_, h2, ?_, by decide⟩
  · simp [treeTest, truncCount, truncCountList, maxRecursionDepth]
  · rw [h2]
    decide

end HostScanner
